import Mathlib

/-!
Shallow embedding of `src/pac_syntax_check.py` (`validate_pac_content`).

The Python function takes raw PAC-script text and returns either a fixed
advisory string (empty / whitespace-only input) or a pair of a rendered
report and a status token `"VALID"` / `"INVALID"`.  Text is modelled as
`List Char` (the string's character sequence); Python's `\s` class,
`str.strip`, `str.upper`/`str.lower` are modelled on their ASCII behaviour,
which is all the validator's own patterns and reference data exercise.
-/

namespace PacCheck

/-- ASCII whitespace, Python's `\s` on ASCII text: space, tab, newline,
carriage return, vertical tab, form feed. -/
def isWs (c : Char) : Bool :=
  c = ' ' || c = '\t' || c = '\n' || c = '\r' || c = '\x0b' || c = '\x0c'

/-- The character `{`. -/
def lbrace : Char := Char.ofNat 123

/-- The character `}`. -/
def rbrace : Char := Char.ofNat 125

/-- The character `'`. -/
def squote : Char := Char.ofNat 39

/-- A quote character, as in the regex class `["\']`. -/
def isQuote (c : Char) : Bool := c = '"' || c = squote

/-- Decimal digit character for `n < 10`. -/
def digitChar (n : Nat) : Char := Char.ofNat (48 + n)

/-- Fuel-driven accumulator loop producing the decimal digits of `n`
in front of `acc` (the fuel is always called with enough to finish). -/
def natReprAux : Nat → Nat → List Char → List Char
  | 0, _, acc => acc
  | fuel + 1, n, acc =>
    if n < 10 then digitChar n :: acc
    else natReprAux fuel (n / 10) (digitChar (n % 10) :: acc)

/-- Decimal representation of a natural number, as Python's `str(n)`. -/
def natRepr (n : Nat) : List Char := natReprAux (n + 1) n []

/-- Decimal representation as a `String`. -/
def natReprS (n : Nat) : String := (natRepr n).asString

/-- Decimal representation of an integer, as Python's `str(i)`. -/
def intReprS (i : Int) : String :=
  if i < 0 then "-" ++ natReprS (-i).toNat else natReprS i.toNat

/-! ### Check 2: brace / parenthesis balance scan (source lines 23–51) -/

/-- Per-line error message for an unmatched closing brace. -/
def lineMsgBrace (i : Nat) : String :=
  "Line " ++ natReprS i ++ ": Unmatched closing brace"

/-- Per-line error message for an unmatched closing parenthesis. -/
def lineMsgParen (i : Nat) : String :=
  "Line " ++ natReprS i ++ ": Unmatched closing parenthesis"

/-- Summary message `Missing {count} closing brace(s)`. -/
def missingBraceMsg (b : Int) : String :=
  "Missing " ++ intReprS b ++ " closing brace(s)"

/-- Summary message `Missing {count} closing parenthesis`. -/
def missingParenMsg (p : Int) : String :=
  "Missing " ++ intReprS p ++ " closing parenthesis"

/-- State of the character scan: the two counters and the errors
accumulated so far (Python's `brackets`, `parentheses`, `errors`). -/
structure ScanState where
  brackets : Int
  parens : Int
  errors : List String
deriving DecidableEq

/-- One character of the scan at (1-based) line number `i`,
mirroring the body of the `for char in line` loop. -/
def scanChar (i : Nat) (s : ScanState) (c : Char) : ScanState :=
  if c = lbrace then { s with brackets := s.brackets + 1 }
  else if c = rbrace then
    { s with brackets := s.brackets - 1,
             errors := s.errors ++
               (if s.brackets - 1 < 0 then [lineMsgBrace i] else []) }
  else if c = '(' then { s with parens := s.parens + 1 }
  else if c = ')' then
    { s with parens := s.parens - 1,
             errors := s.errors ++
               (if s.parens - 1 < 0 then [lineMsgParen i] else []) }
  else s

/-- Python's `content.split('\n')`: every `'\n'` is a separator, the
empty string splits to `[""]`. -/
def splitNl : List Char → List (List Char)
  | [] => [[]]
  | c :: cs =>
    if c = '\n' then [] :: splitNl cs
    else
      match splitNl cs with
      | [] => [[c]]
      | l :: ls => (c :: l) :: ls

/-- The `for i, line in enumerate(lines, 1)` loop over the split lines. -/
def scanLines : Nat → ScanState → List (List Char) → ScanState
  | _, s, [] => s
  | i, s, l :: ls => scanLines (i + 1) (l.foldl (scanChar i) s) ls

/-- Full scan of the content, starting both counters at `0` and the
line number at `1`. -/
def scanSt (cs : List Char) : ScanState := scanLines 1 ⟨0, 0, []⟩ (splitNl cs)

/-- Summary errors for the final brace counter (source lines 43–46). -/
def braceSummary (b : Int) : List String :=
  if b > 0 then [missingBraceMsg b]
  else if b < 0 then ["Extra closing brace(s)"]
  else []

/-- Summary errors for the final parenthesis counter (source lines 48–51). -/
def parenSummary (p : Int) : List String :=
  if p > 0 then [missingParenMsg p]
  else if p < 0 then ["Extra closing parenthesis"]
  else []

/-! ### Check 1: required `FindProxyForURL` declaration (source lines 16–21) -/

/-- ASCII lower-casing of one character, for the `re.IGNORECASE` match. -/
def lowc (c : Char) : Char :=
  if 65 ≤ c.toNat && c.toNat ≤ 90 then Char.ofNat (c.toNat + 32) else c

/-- Match a literal token case-insensitively (the token given lower-case),
returning the rest of the input on success. -/
def matchLitCI : List Char → List Char → Option (List Char)
  | [], cs => some cs
  | _ :: _, [] => none
  | p :: ps, c :: cs => if lowc c = p then matchLitCI ps cs else none

/-- `\s*`: drop leading whitespace. -/
def wsStar (cs : List Char) : List Char := cs.dropWhile isWs

/-- The part of the pattern after `function\s`, i.e.
`\s*FindProxyForURL\s*\(\s*url\s*,\s*host\s*\)\s*{`. -/
def fpfuTail (r1 : List Char) : Option (List Char) :=
  (matchLitCI "findproxyforurl".data (wsStar r1)).bind fun r2 =>
  (matchLitCI "(".data (wsStar r2)).bind fun r3 =>
  (matchLitCI "url".data (wsStar r3)).bind fun r4 =>
  (matchLitCI ",".data (wsStar r4)).bind fun r5 =>
  (matchLitCI "host".data (wsStar r5)).bind fun r6 =>
  (matchLitCI ")".data (wsStar r6)).bind fun r7 =>
  matchLitCI [lbrace] (wsStar r7)

/-- Does `function\s+FindProxyForURL\s*\(\s*url\s*,\s*host\s*\)\s*{`
(case-insensitively) match at the start of `cs`? -/
def matchFpfuAt (cs : List Char) : Bool :=
  match matchLitCI "function".data cs with
  | none => false
  | some [] => false
  | some (c :: r1) => isWs c && (fpfuTail r1).isSome

/-- Python's `re.search` of the pattern: does it match at any position? -/
def containsFpfu (cs : List Char) : Bool :=
  matchFpfuAt cs ||
    match cs with
    | [] => false
    | _ :: t => containsFpfu t

/-- The missing-entry-point error message. -/
def missingMsg : String :=
  "Missing required 'FindProxyForURL(url, host)' function"

/-- The INFO confirming the entry point was found. -/
def foundMsg : String := "✅ Found FindProxyForURL function"

/-- Errors appended by check 1. -/
def fpfuErrors (cs : List Char) : List String :=
  if containsFpfu cs then [] else [missingMsg]

/-- Info appended by check 1. -/
def fpfuInfo (cs : List Char) : List String :=
  if containsFpfu cs then [foundMsg] else []

/-! ### Check 3: return statements (source lines 53–73) -/

/-- Match a literal token case-sensitively. -/
def matchLit : List Char → List Char → Option (List Char)
  | [], cs => some cs
  | _ :: _, [] => none
  | p :: ps, c :: cs => if c = p then matchLit ps cs else none

/-- Try to match the regex `return\s+["\'][^"\']*["\']` at the start of
`cs`; on success return the matched substring and the rest. -/
def matchReturnAt (cs : List Char) : Option (List Char × List Char) :=
  match matchLit "return".data cs with
  | none => none
  | some r1 =>
    let ws := r1.takeWhile isWs
    let r2 := r1.dropWhile isWs
    if ws.isEmpty then none
    else
      match r2 with
      | [] => none
      | q1 :: r3 =>
        if isQuote q1 then
          let v := r3.takeWhile (fun c => !isQuote c)
          match r3.dropWhile (fun c => !isQuote c) with
          | [] => none
          | q2 :: r5 => some ("return".data ++ ws ++ q1 :: (v ++ [q2]), r5)
        else none

/-- Fuel-driven left-to-right non-overlapping scan, as `re.findall`:
try a match at each position, skip past each match found (the fuel is
always called with enough to finish). -/
def findallAux : Nat → List Char → List (List Char)
  | 0, _ => []
  | _ + 1, [] => []
  | fuel + 1, c :: cs =>
    match matchReturnAt (c :: cs) with
    | some p => p.1 :: findallAux fuel p.2
    | none => findallAux fuel cs

/-- `re.findall(return_pattern, content)`: the list of matched
return-statement substrings. -/
def findallReturns (cs : List Char) : List (List Char) :=
  findallAux cs.length cs

/-- `re.search(r'["\\']([^"\\']*)["\\']', ret)`, group 1: the first quoted
value inside a matched return statement. -/
def extractValue : List Char → Option (List Char)
  | [] => none
  | c :: cs =>
    if isQuote c then
      match cs.dropWhile (fun d => !isQuote d) with
      | _ :: _ => some (cs.takeWhile (fun d => !isQuote d))
      | [] => extractValue cs
    else extractValue cs

/-- Python's `str.strip()` on ASCII whitespace. -/
def strip (cs : List Char) : List Char :=
  ((cs.dropWhile isWs).reverse.dropWhile isWs).reverse

/-- ASCII upper-casing of one character, modelling `str.upper()`. -/
def asciiUpper (c : Char) : Char :=
  if 97 ≤ c.toNat && c.toNat ≤ 122 then Char.ofNat (c.toNat - 32) else c

/-- `l` starts with `p` (Python's `str.startswith`). -/
def startsWithL : List Char → List Char → Bool
  | [], _ => true
  | _ :: _, [] => false
  | p :: ps, c :: cs => p = c && startsWithL ps cs

/-- The reference list `valid_prefixes` of the source. -/
def validStarts : List (List Char) :=
  ["DIRECT".data, "PROXY".data, "SOCKS".data, "HTTP".data, "HTTPS".data]

/-- `any(value.upper().startswith(p) for p in valid_prefixes)`. -/
def isValidReturn (v : List Char) : Bool :=
  validStarts.any (fun p => startsWithL p (v.map asciiUpper))

/-- INFO message for a valid return value. -/
def validRetMsg (v : List Char) : String :=
  "Valid return: '" ++ v.asString ++ "'"

/-- WARNING message for an unusual return value. -/
def unusualRetMsg (v : List Char) : String :=
  "Unusual return value: '" ++ v.asString ++ "'"

/-- The `for ret in returns` loop: per-match classification findings,
as the pair (warnings appended, info appended), each in loop order. -/
def retFindings : List (List Char) → List String × List String
  | [] => ([], [])
  | r :: rs =>
    let rest := retFindings rs
    let cur : List String × List String :=
      match extractValue r with
      | none => ([], [])
      | some v =>
        let value := strip v
        if value.isEmpty then ([], [])
        else if isValidReturn value then ([], [validRetMsg value])
        else ([unusualRetMsg value], [])
    (cur.1 ++ rest.1, cur.2 ++ rest.2)

/-- INFO message `Found {n} return statement(s)`. -/
def foundRetMsg (n : Nat) : String :=
  "Found " ++ natReprS n ++ " return statement(s)"

/-- Info appended by check 3. -/
def returnInfos (cs : List Char) : List String :=
  let rets := findallReturns cs
  if rets.isEmpty then []
  else foundRetMsg rets.length :: (retFindings rets).2

/-- Warnings appended by check 3. -/
def returnWarnings (cs : List Char) : List String :=
  let rets := findallReturns cs
  if rets.isEmpty then ["No return statements found"]
  else (retFindings rets).1

/-! ### Check 4: known PAC helper functions (source lines 75–89) -/

/-- The fixed reference list `pac_functions`. -/
def pacFunctions : List String :=
  ["isPlainHostName", "dnsDomainIs", "localHostOrDomainIs",
   "isResolvable", "isInNet", "dnsResolve", "myIpAddress",
   "dnsDomainLevels", "shExpMatch", "weekdayRange", "dateRange",
   "timeRange"]

/-- `needle in hay` for Python strings: contiguous substring presence. -/
def containsSub (hay needle : List Char) : Bool :=
  startsWithL needle hay ||
    match hay with
    | [] => false
    | _ :: t => containsSub t needle

/-- `found_functions`: names of the reference list present in the text,
in reference-list order. -/
def foundFunctions (cs : List Char) : List String :=
  pacFunctions.filter (fun f => containsSub cs f.data)

/-- INFO message listing the found helper names. -/
def pacFuncMsg (fs : List String) : String :=
  "PAC functions used: " ++ String.intercalate ", " fs

/-- Info appended by check 4. -/
def pacInfo (cs : List Char) : List String :=
  if (foundFunctions cs).isEmpty then [] else [pacFuncMsg (foundFunctions cs)]

/-! ### Buckets, report and verdict (source lines 12–14, 91–120) -/

/-- The full error bucket, in the order the source appends. -/
def runErrors (cs : List Char) : List String :=
  fpfuErrors cs ++ (scanSt cs).errors
    ++ braceSummary (scanSt cs).brackets ++ parenSummary (scanSt cs).parens

/-- The full warning bucket. -/
def runWarnings (cs : List Char) : List String := returnWarnings cs

/-- The full info bucket, in the order the source appends. -/
def runInfo (cs : List Char) : List String :=
  fpfuInfo cs ++ returnInfos cs ++ pacInfo cs

/-- The status token of the final verdict. -/
def statusStr (cs : List Char) : String :=
  if (runErrors cs).isEmpty then "VALID" else "INVALID"

/-- One report section: banner, bulleted items, blank line — empty when
the bucket is empty. -/
def reportSection (banner : String) (items : List String) : List String :=
  if items.isEmpty then []
  else banner :: items.map (fun m => "  • " ++ m) ++ [""]

/-- All report lines, sections in the fixed ERRORS → WARNINGS → INFO
order followed by the closing verdict banner. -/
def reportLines (cs : List Char) : List String :=
  reportSection "🚨 ERRORS:" (runErrors cs)
    ++ reportSection "⚠️ WARNINGS:" (runWarnings cs)
    ++ reportSection "ℹ️ INFO:" (runInfo cs)
    ++ [if (runErrors cs).isEmpty then "✅ PAC file syntax appears valid!"
        else "❌ PAC file has syntax errors"]

/-- `"\n".join(report)`. -/
def reportStr (cs : List Char) : String :=
  String.intercalate "\n" (reportLines cs)

/-- The two shapes `validate_pac_content` can return: the bare advisory
string for empty input, or the (report, status) pair. -/
inductive ValidateResult where
  | emptyInput (msg : String)
  | report (text : String) (status : String)
deriving DecidableEq

/-- The validator itself (source lines 7–120). -/
def validate_pac_content (content : String) : ValidateResult :=
  if content.data.all isWs then
    ValidateResult.emptyInput "❌ Empty file or no content provided"
  else
    ValidateResult.report (reportStr content.data) (statusStr content.data)

/-- The status component of a validation outcome, when one exists. -/
def statusOf (cs : List Char) : Option String :=
  match validate_pac_content (String.mk cs) with
  | ValidateResult.emptyInput _ => none
  | ValidateResult.report _ st => some st

/-! ### Spec-side reference scan

The spec describes the balance check as one raw character walk: a line
counter starting at 1 and incremented on each newline, two counters, and
one offence recorded — tagged with the current line — for every closing
character that drives its counter negative.  These definitions follow the
spec's words; the refinement theorem for C5 compares them with the
source-side `scanSt`. -/

/-- The kind of an offending closing character. -/
inductive OffKind where
  | brace
  | paren
deriving DecidableEq

/-- State of the spec-side walk. -/
structure SpecState where
  line : Nat
  br : Int
  pr : Int
  offs : List (Nat × OffKind)
deriving DecidableEq

/-- One character of the spec-side walk. -/
def specStep (s : SpecState) (c : Char) : SpecState :=
  if c = '\n' then { s with line := s.line + 1 }
  else if c = lbrace then { s with br := s.br + 1 }
  else if c = rbrace then
    { s with br := s.br - 1,
             offs := s.offs ++
               (if s.br - 1 < 0 then [(s.line, OffKind.brace)] else []) }
  else if c = '(' then { s with pr := s.pr + 1 }
  else if c = ')' then
    { s with pr := s.pr - 1,
             offs := s.offs ++
               (if s.pr - 1 < 0 then [(s.line, OffKind.paren)] else []) }
  else s

/-- The spec-side walk over the whole text. -/
def specRun (cs : List Char) : SpecState := cs.foldl specStep ⟨1, 0, 0, []⟩

/-- The offending closing characters of the text: for each one, the
1-based line it sits on and its kind, in text order. -/
def specOffenses (cs : List Char) : List (Nat × OffKind) := (specRun cs).offs

/-- The error message the source emits for an offence. -/
def offMsg : Nat × OffKind → String
  | (i, OffKind.brace) => lineMsgBrace i
  | (i, OffKind.paren) => lineMsgParen i

/-- The running open-brace counter stays non-negative after every
character of the text ("no point where the counter went negative"). -/
def braceNonNegAux : Int → List Char → Bool
  | _, [] => true
  | b, c :: cs =>
    let b' := b + (if c = lbrace then 1 else if c = rbrace then -1 else 0)
    decide (0 ≤ b') && braceNonNegAux b' cs

/-- Never-negative predicate for the brace counter of a text. -/
def braceNeverNeg (cs : List Char) : Bool := braceNonNegAux 0 cs

/-- A well-formed PAC script: declaration, balanced brackets, one valid
return. -/
def c10Good : String :=
  "function FindProxyForURL(url, host) \x7b\nreturn \"DIRECT\";\n\x7d"

/-- The same script except the returned string literal is the single
character `}` — an unpaired brace inside quotes. -/
def c10Bad : String :=
  "function FindProxyForURL(url, host) \x7b\nreturn \"\x7d\";\n\x7d"

/-- Decimal digit test (used only to state and prove message
disjointness). -/
def isDig (c : Char) : Bool := 48 ≤ c.toNat && c.toNat ≤ 57

lemma isDig_digitChar {d : Nat} (h : d < 10) : isDig (digitChar d) = true := by
  interval_cases d <;> decide

lemma natReprAux_head (fuel : Nat) :
    ∀ (n : Nat) (acc : List Char), ∃ d rest, d < 10 ∧
      natReprAux (fuel + 1) n acc = digitChar d :: rest := by
  induction fuel with
  | zero =>
    intro n acc
    by_cases h : n < 10
    · exact ⟨n, acc, h, by simp [natReprAux, h]⟩
    · exact ⟨n % 10, acc, Nat.mod_lt _ (by omega), by simp [natReprAux, h]⟩
  | succ f ih =>
    intro n acc
    by_cases h : n < 10
    · exact ⟨n, acc, h, by simp [natReprAux, h]⟩
    · obtain ⟨d, rest, hd, he⟩ := ih (n / 10) (digitChar (n % 10) :: acc)
      exact ⟨d, rest, hd, by simp only [natReprAux, if_neg h]; exact he⟩

lemma natRepr_head (n : Nat) :
    ∃ d rest, d < 10 ∧ natRepr n = digitChar d :: rest :=
  natReprAux_head n n []

lemma natRepr_ne_nil (n : Nat) : natRepr n ≠ [] := by
  obtain ⟨d, rest, _, he⟩ := natRepr_head n
  simp [he]

lemma natReprAux_digits (fuel : Nat) :
    ∀ (n : Nat) (acc : List Char), (∀ c ∈ acc, isDig c = true) →
      ∀ c ∈ natReprAux fuel n acc, isDig c = true := by
  induction fuel with
  | zero => intro n acc hacc; simpa [natReprAux] using hacc
  | succ f ih =>
    intro n acc hacc c hc
    by_cases h : n < 10
    · rw [natReprAux, if_pos h] at hc
      rcases List.mem_cons.mp hc with rfl | hmem
      · exact isDig_digitChar h
      · exact hacc c hmem
    · rw [natReprAux, if_neg h] at hc
      refine ih (n / 10) _ ?_ c hc
      intro c' hc'
      rcases List.mem_cons.mp hc' with rfl | hmem
      · exact isDig_digitChar (Nat.mod_lt _ (by omega))
      · exact hacc c' hmem

lemma natRepr_digits (n : Nat) : ∀ c ∈ natRepr n, isDig c = true :=
  natReprAux_digits (n + 1) n [] (by simp)

lemma digit_append_cancel (a : List Char) :
    ∀ (x b y : List Char),
      (∀ c ∈ a, isDig c = true) → (∀ c ∈ b, isDig c = true) →
      (∀ c, x.head? = some c → isDig c = false) →
      (∀ c, y.head? = some c → isDig c = false) →
      a ++ x = b ++ y → a = b ∧ x = y := by
  induction a with
  | nil =>
    intro x b y _ hb hx _ h
    cases b with
    | nil => simpa using h
    | cons c t =>
      exfalso
      simp only [List.nil_append, List.cons_append] at h
      have h1 : isDig c = false := hx c (by rw [h]; rfl)
      have h2 : isDig c = true := hb c (List.mem_cons_self c t)
      simp [h2] at h1
  | cons a' ta ih =>
    intro x b y ha hb hx hy h
    cases b with
    | nil =>
      exfalso
      simp only [List.nil_append, List.cons_append] at h
      have h1 : isDig a' = false := hy a' (by rw [← h]; rfl)
      have h2 : isDig a' = true := ha a' (List.mem_cons_self a' ta)
      simp [h2] at h1
    | cons b' tb =>
      simp only [List.cons_append, List.cons.injEq] at h
      obtain ⟨rfl, h2⟩ := h
      obtain ⟨h3, h4⟩ := ih x tb y (fun c hc => ha c (List.mem_cons_of_mem _ hc))
        (fun c hc => hb c (List.mem_cons_of_mem _ hc)) hx hy h2
      exact ⟨by rw [h3], h4⟩

lemma data_append (s t : String) : (s ++ t).data = s.data ++ t.data := rfl

lemma ne_of_head {s t : String} {a b : Char} (hs : s.data.head? = some a)
    (ht : t.data.head? = some b) (hab : a ≠ b) : s ≠ t := by
  intro h
  rw [h, ht] at hs
  exact hab (Option.some.inj hs).symm

lemma head_nonDig_of (l : List Char) (c0 : Char) (h0 : l.head? = some c0)
    (hd : isDig c0 = false) : ∀ c, l.head? = some c → isDig c = false := by
  intro c hc
  rw [h0] at hc
  injection hc with h
  rwa [← h]

lemma digits_append_ne {r sfx t : List Char} (hr : ∀ c ∈ r, isDig c = true)
    (hne : r ≠ [])
    (hx : ∀ c, sfx.head? = some c → isDig c = false)
    (ht : ∀ c, t.head? = some c → isDig c = false) : r ++ sfx ≠ t := by
  intro h
  obtain ⟨h1, _⟩ := digit_append_cancel r sfx [] t hr (by simp) hx ht (by simpa using h)
  exact hne h1

lemma lineMsgBrace_head (i : Nat) : (lineMsgBrace i).data.head? = some 'L' := by
  rw [lineMsgBrace, data_append, data_append]; rfl

lemma lineMsgParen_head (i : Nat) : (lineMsgParen i).data.head? = some 'L' := by
  rw [lineMsgParen, data_append, data_append]; rfl

lemma missingBraceMsg_head (b : Int) : (missingBraceMsg b).data.head? = some 'M' := by
  rw [missingBraceMsg, data_append, data_append]; rfl

lemma missingParenMsg_head (p : Int) : (missingParenMsg p).data.head? = some 'M' := by
  rw [missingParenMsg, data_append, data_append]; rfl

lemma foundRetMsg_head (n : Nat) : (foundRetMsg n).data.head? = some 'F' := by
  rw [foundRetMsg, data_append, data_append]; rfl

lemma validRetMsg_head (v : List Char) : (validRetMsg v).data.head? = some 'V' := by
  rw [validRetMsg, data_append, data_append]; rfl

lemma unusualRetMsg_head (v : List Char) : (unusualRetMsg v).data.head? = some 'U' := by
  rw [unusualRetMsg, data_append, data_append]; rfl

lemma pacFuncMsg_head (fs : List String) : (pacFuncMsg fs).data.head? = some 'P' := by
  rw [pacFuncMsg, data_append]; rfl

lemma missingMsg_head : missingMsg.data.head? = some 'M' := rfl

lemma missingMsg_data :
    missingMsg.data =
      "Missing ".data ++ "required 'FindProxyForURL(url, host)' function".data := by
  decide

lemma missingBraceMsg_pos_data {b : Int} (hb : 0 < b) :
    (missingBraceMsg b).data =
      ("Missing ".data ++ natRepr b.toNat) ++ " closing brace(s)".data := by
  rw [missingBraceMsg, intReprS, if_neg (by omega), data_append, data_append]
  rfl

lemma missingParenMsg_pos_data {p : Int} (hp : 0 < p) :
    (missingParenMsg p).data =
      ("Missing ".data ++ natRepr p.toNat) ++ " closing parenthesis".data := by
  rw [missingParenMsg, intReprS, if_neg (by omega), data_append, data_append]
  rfl

lemma missingBraceMsg_ne_missingMsg {b : Int} (hb : 0 < b) :
    missingBraceMsg b ≠ missingMsg := by
  intro h
  have hd := congrArg String.data h
  rw [missingBraceMsg_pos_data hb, missingMsg_data, List.append_assoc] at hd
  exact digits_append_ne (natRepr_digits _) (natRepr_ne_nil _)
    (head_nonDig_of (" closing brace(s)".data) ' ' rfl rfl)
    (head_nonDig_of ("required 'FindProxyForURL(url, host)' function".data) 'r' rfl rfl)
    (List.append_cancel_left hd)

lemma missingParenMsg_ne_missingMsg {p : Int} (hp : 0 < p) :
    missingParenMsg p ≠ missingMsg := by
  intro h
  have hd := congrArg String.data h
  rw [missingParenMsg_pos_data hp, missingMsg_data, List.append_assoc] at hd
  exact digits_append_ne (natRepr_digits _) (natRepr_ne_nil _)
    (head_nonDig_of (" closing parenthesis".data) ' ' rfl rfl)
    (head_nonDig_of ("required 'FindProxyForURL(url, host)' function".data) 'r' rfl rfl)
    (List.append_cancel_left hd)

lemma missingBraceMsg_ne_missingParenMsg {b p : Int} (hb : 0 < b) (hp : 0 < p) :
    missingBraceMsg b ≠ missingParenMsg p := by
  intro h
  have hd := congrArg String.data h
  rw [missingBraceMsg_pos_data hb, missingParenMsg_pos_data hp,
    List.append_assoc, List.append_assoc] at hd
  obtain ⟨-, h4⟩ := digit_append_cancel (natRepr b.toNat) (" closing brace(s)".data)
    (natRepr p.toNat) (" closing parenthesis".data)
    (natRepr_digits _) (natRepr_digits _)
    (head_nonDig_of (" closing brace(s)".data) ' ' rfl rfl)
    (head_nonDig_of (" closing parenthesis".data) ' ' rfl rfl)
    (List.append_cancel_left hd)
  exact absurd h4 (by decide)

lemma splitNl_cons_eq (c : Char) (cs : List Char) :
    splitNl (c :: cs) =
      if c = '\n' then [] :: splitNl cs
      else
        match splitNl cs with
        | [] => [[c]]
        | l :: ls => (c :: l) :: ls := rfl

lemma splitNl_cons (cs : List Char) : ∃ l ls, splitNl cs = l :: ls := by
  cases cs with
  | nil => exact ⟨[], [], rfl⟩
  | cons c cs =>
    rw [splitNl_cons_eq]
    by_cases h : c = '\n'
    · rw [if_pos h]
      exact ⟨[], splitNl cs, rfl⟩
    · rw [if_neg h]
      rcases hsp : splitNl cs with - | ⟨l, ls⟩
      · exact ⟨[c], [], rfl⟩
      · exact ⟨c :: l, ls, rfl⟩

lemma splitNl_nl (cs : List Char) : splitNl ('\n' :: cs) = [] :: splitNl cs := by
  rw [splitNl_cons_eq, if_pos rfl]

lemma splitNl_other {c : Char} (hc : ¬ c = '\n') (cs l : List Char)
    (ls : List (List Char)) (h : splitNl cs = l :: ls) :
    splitNl (c :: cs) = (c :: l) :: ls := by
  rw [splitNl_cons_eq, if_neg hc, h]

lemma scanLines_cons (i : Nat) (s : ScanState) (l : List Char)
    (ls : List (List Char)) :
    scanLines i s (l :: ls) = scanLines (i + 1) (l.foldl (scanChar i) s) ls := rfl

lemma step_sim (i : Nat) (b p : Int) (o : List (Nat × OffKind)) (c : Char)
    (hc : ¬ c = '\n') :
    scanChar i ⟨b, p, o.map offMsg⟩ c =
      ⟨(specStep ⟨i, b, p, o⟩ c).br, (specStep ⟨i, b, p, o⟩ c).pr,
        ((specStep ⟨i, b, p, o⟩ c).offs).map offMsg⟩ ∧
    (specStep ⟨i, b, p, o⟩ c).line = i := by
  rw [scanChar, specStep, if_neg hc]
  split_ifs <;> simp_all [offMsg, List.map_append]

lemma sim_main (cs : List Char) :
    ∀ (i : Nat) (b p : Int) (o : List (Nat × OffKind)),
      scanLines i ⟨b, p, o.map offMsg⟩ (splitNl cs) =
        ⟨(cs.foldl specStep ⟨i, b, p, o⟩).br,
         (cs.foldl specStep ⟨i, b, p, o⟩).pr,
         ((cs.foldl specStep ⟨i, b, p, o⟩).offs).map offMsg⟩ := by
  induction cs with
  | nil =>
    intro i b p o
    simp [splitNl, scanLines, List.foldl]
  | cons c cs ih =>
    intro i b p o
    by_cases hc : c = '\n'
    · subst hc
      rw [splitNl_nl, scanLines_cons]
      simp only [List.foldl_nil]
      rw [ih (i + 1) b p o, List.foldl_cons,
        show specStep ⟨i, b, p, o⟩ '\n' = ⟨i + 1, b, p, o⟩ from by
          rw [specStep, if_pos rfl]]
    · obtain ⟨l, ls, hsp⟩ := splitNl_cons cs
      obtain ⟨hstep, hline⟩ := step_sim i b p o c hc
      have hmid : (⟨i, (specStep ⟨i, b, p, o⟩ c).br, (specStep ⟨i, b, p, o⟩ c).pr,
          (specStep ⟨i, b, p, o⟩ c).offs⟩ : SpecState)
          = ⟨(specStep ⟨i, b, p, o⟩ c).line, (specStep ⟨i, b, p, o⟩ c).br,
             (specStep ⟨i, b, p, o⟩ c).pr, (specStep ⟨i, b, p, o⟩ c).offs⟩ := by
        rw [hline]
      have heta : (⟨i, (specStep ⟨i, b, p, o⟩ c).br, (specStep ⟨i, b, p, o⟩ c).pr,
          (specStep ⟨i, b, p, o⟩ c).offs⟩ : SpecState) = specStep ⟨i, b, p, o⟩ c :=
        hmid.trans rfl
      rw [splitNl_other hc cs l ls hsp, scanLines_cons, List.foldl_cons, hstep,
        show scanLines (i + 1)
            (List.foldl (scanChar i)
              ⟨(specStep ⟨i, b, p, o⟩ c).br, (specStep ⟨i, b, p, o⟩ c).pr,
                ((specStep ⟨i, b, p, o⟩ c).offs).map offMsg⟩ l) ls
          = scanLines i
              ⟨(specStep ⟨i, b, p, o⟩ c).br, (specStep ⟨i, b, p, o⟩ c).pr,
                ((specStep ⟨i, b, p, o⟩ c).offs).map offMsg⟩ (l :: ls) from rfl,
        ← hsp, ih i (specStep ⟨i, b, p, o⟩ c).br (specStep ⟨i, b, p, o⟩ c).pr
          (specStep ⟨i, b, p, o⟩ c).offs,
        List.foldl_cons, heta]

lemma scanSt_eq_spec (cs : List Char) :
    scanSt cs = ⟨(specRun cs).br, (specRun cs).pr, (specOffenses cs).map offMsg⟩ := by
  have h := sim_main cs 1 0 0 []
  simpa [scanSt, specRun, specOffenses] using h

lemma scan_errors_eq (cs : List Char) :
    (scanSt cs).errors = (specOffenses cs).map offMsg := by
  rw [scanSt_eq_spec]

lemma count_eq_zero_of_forall_ne {a : String} {l : List String}
    (h : ∀ m ∈ l, m ≠ a) : List.count a l = 0 :=
  List.count_eq_zero.mpr (fun ha => h a ha rfl)

lemma count_singleton_ne {a x : String} (h : x ≠ a) : List.count a [x] = 0 := by
  simp [List.count_cons, h]

lemma scan_errors_head (cs : List Char) :
    ∀ m ∈ (scanSt cs).errors, m.data.head? = some 'L' := by
  rw [scan_errors_eq]
  intro m hm
  obtain ⟨q, -, rfl⟩ := List.mem_map.mp hm
  rcases q with ⟨j, k⟩
  cases k
  · exact lineMsgBrace_head j
  · exact lineMsgParen_head j

lemma count_scan_zero {cs : List Char} {a : String}
    (ha : ¬ a.data.head? = some 'L') : List.count a (scanSt cs).errors = 0 :=
  count_eq_zero_of_forall_ne (fun m hm he => ha (he ▸ scan_errors_head cs m hm))

lemma count_missingMsg_braceSummary (b : Int) :
    List.count missingMsg (braceSummary b) = 0 := by
  rw [braceSummary]
  split_ifs with h1 h2
  · exact count_singleton_ne (missingBraceMsg_ne_missingMsg h1)
  · exact count_singleton_ne (by decide)
  · rfl

lemma count_missingMsg_parenSummary (p : Int) :
    List.count missingMsg (parenSummary p) = 0 := by
  rw [parenSummary]
  split_ifs with h1 h2
  · exact count_singleton_ne (missingParenMsg_ne_missingMsg h1)
  · exact count_singleton_ne (by decide)
  · rfl

lemma count_runErrors (cs : List Char) (a : String) :
    List.count a (runErrors cs) =
      List.count a (fpfuErrors cs) + List.count a (scanSt cs).errors
        + List.count a (braceSummary (scanSt cs).brackets)
        + List.count a (parenSummary (scanSt cs).parens) := by
  rw [runErrors, List.count_append, List.count_append, List.count_append]

lemma fpfuErrors_of_not {cs : List Char} (hf : containsFpfu cs = false) :
    fpfuErrors cs = [missingMsg] := by
  rw [fpfuErrors, hf]
  rfl

lemma fpfuErrors_of_found {cs : List Char} (hf : containsFpfu cs = true) :
    fpfuErrors cs = [] := by
  rw [fpfuErrors, hf]
  rfl

lemma fpfuInfo_of_found {cs : List Char} (hf : containsFpfu cs = true) :
    fpfuInfo cs = [foundMsg] := by
  rw [fpfuInfo, hf]
  rfl

lemma validate_eq_report {content : String} (h : content.data.all isWs = false) :
    validate_pac_content content =
      ValidateResult.report (reportStr content.data) (statusStr content.data) := by
  rw [validate_pac_content, h]
  rfl

lemma statusOf_eq {cs : List Char} (hws : cs.all isWs = false) :
    statusOf cs = some (statusStr cs) := by
  rw [statusOf, validate_eq_report]
  exact hws

lemma statusStr_invalid {cs : List Char} (hne : runErrors cs ≠ []) :
    statusStr cs = "INVALID" := by
  rw [statusStr]
  rcases hE : runErrors cs with - | ⟨x, xs⟩
  · exact absurd hE hne
  · rfl

lemma statusOf_invalid {cs : List Char} (hws : cs.all isWs = false)
    (hne : runErrors cs ≠ []) : statusOf cs = some "INVALID" := by
  rw [statusOf_eq hws, statusStr_invalid hne]

lemma ne_nil_of_count_one {a : String} {l : List String}
    (h : List.count a l = 1) : l ≠ [] := by
  intro hnil
  rw [hnil] at h
  simp at h

/-- C1: for every non-empty, non-whitespace-only input the returned
status is `"INVALID"` exactly when the error bucket is non-empty and
`"VALID"` exactly when it is empty; the status is a function of the
error bucket alone, so WARNING/INFO findings never change the verdict. -/
theorem C1_verdict_from_errors (content : String)
    (h : content.data.all isWs = false) :
    (statusOf content.data = some "INVALID" ↔ runErrors content.data ≠ []) ∧
    (statusOf content.data = some "VALID" ↔ runErrors content.data = []) ∧
    (∀ c2 : String, c2.data.all isWs = false →
      runErrors content.data = runErrors c2.data →
      statusOf content.data = statusOf c2.data) := by
  refine ⟨?_, ?_, ?_⟩
  · rw [statusOf_eq h, statusStr]
    rcases hE : runErrors content.data with - | ⟨x, xs⟩ <;> simp
  · rw [statusOf_eq h, statusStr]
    rcases hE : runErrors content.data with - | ⟨x, xs⟩ <;> simp
  · intro c2 h2 he
    rw [statusOf_eq h, statusOf_eq h2, statusStr, statusStr, he]

/-- Witness for C1: two concrete scripts with equal error buckets get
equal status. -/
theorem C1_witness : statusOf "x".data = statusOf "y".data :=
  (C1_verdict_from_errors "x" (by decide)).2.2 "y" (by decide) (by decide)

/-- C2: on empty or whitespace-only input the validator short-circuits,
returning only the fixed advisory message — a result of the status-less
`emptyInput` shape with no findings. -/
theorem C2_empty_short_circuit (content : String)
    (h : content.data.all isWs = true) :
    validate_pac_content content =
      ValidateResult.emptyInput "❌ Empty file or no content provided" := by
  rw [validate_pac_content, h]
  rfl

/-- Witness for C2 at the empty string and a whitespace-only string. -/
theorem C2_witness :
    validate_pac_content "" =
      ValidateResult.emptyInput "❌ Empty file or no content provided" ∧
    validate_pac_content " \t\n " =
      ValidateResult.emptyInput "❌ Empty file or no content provided" :=
  ⟨C2_empty_short_circuit "" (by decide), C2_empty_short_circuit " \t\n " (by decide)⟩

/-- C3: when no case-insensitive match of the required
`function FindProxyForURL ( url , host ) {` shape occurs, the error
bucket contains the missing-function message exactly once — whatever the
rest of the content — and the verdict is INVALID; when a match is
present, the confirming INFO is appended instead and the missing-function
error does not occur. -/
theorem C3_missing_fpfu (cs : List Char) :
    (containsFpfu cs = false →
      List.count missingMsg (runErrors cs) = 1 ∧
      (cs.all isWs = false → statusOf cs = some "INVALID")) ∧
    (containsFpfu cs = true →
      List.count missingMsg (runErrors cs) = 0 ∧ foundMsg ∈ runInfo cs) := by
  have hscan : List.count missingMsg (scanSt cs).errors = 0 :=
    count_scan_zero (by rw [missingMsg_head]; decide)
  constructor
  · intro hf
    have hcount : List.count missingMsg (runErrors cs) = 1 := by
      rw [count_runErrors, fpfuErrors_of_not hf, hscan,
        count_missingMsg_braceSummary, count_missingMsg_parenSummary]
      simp
    exact ⟨hcount, fun hws => statusOf_invalid hws (ne_nil_of_count_one hcount)⟩
  · intro hf
    constructor
    · rw [count_runErrors, fpfuErrors_of_found hf, hscan,
        count_missingMsg_braceSummary, count_missingMsg_parenSummary]
      simp
    · rw [runInfo, fpfuInfo_of_found hf]
      exact List.mem_append_left _ (List.mem_append_left _ (List.mem_cons_self _ _))

/-- Witness for C3: a script without the declaration gets the error once
and verdict INVALID; a script with it gets the confirming INFO. -/
theorem C3_witness :
    List.count missingMsg (runErrors "x".data) = 1 ∧
    statusOf "x".data = some "INVALID" ∧
    foundMsg ∈ runInfo "function FindProxyForURL(url, host) \x7b".data := by
  refine ⟨((C3_missing_fpfu "x".data).1 (by decide)).1,
    ((C3_missing_fpfu "x".data).1 (by decide)).2 (by decide),
    ((C3_missing_fpfu "function FindProxyForURL(url, host) \x7b".data).2
      (by decide)).2⟩

/-- C4: if the scan ends with the brace counter at `N > 0` (and the
counter never went negative), the error bucket contains the message
`Missing N closing brace(s)` exactly once; if it ends negative, it
contains `Extra closing brace(s)` — with no count — exactly once. -/
theorem C4_brace_summary (cs : List Char) (N : Int) :
    ((scanSt cs).brackets = N → 0 < N → braceNeverNeg cs = true →
      List.count (missingBraceMsg N) (runErrors cs) = 1) ∧
    ((scanSt cs).brackets = N → N < 0 →
      List.count "Extra closing brace(s)" (runErrors cs) = 1) := by
  constructor
  · intro hN hpos _hnn
    rw [count_runErrors, hN]
    rw [show List.count (missingBraceMsg N) (fpfuErrors cs) = 0 from by
      rw [fpfuErrors]
      split_ifs
      · rfl
      · exact count_singleton_ne (Ne.symm (missingBraceMsg_ne_missingMsg hpos))]
    rw [count_scan_zero (by rw [missingBraceMsg_head]; decide)]
    rw [show List.count (missingBraceMsg N) (braceSummary N) = 1 from by
      rw [braceSummary, if_pos hpos]
      simp]
    rw [show List.count (missingBraceMsg N) (parenSummary (scanSt cs).parens) = 0 from by
      rw [parenSummary]
      split_ifs with h1 h2
      · exact count_singleton_ne
          (Ne.symm (missingBraceMsg_ne_missingParenMsg hpos h1))
      · exact count_singleton_ne
          (ne_of_head rfl (missingBraceMsg_head N) (by decide))
      · rfl]
  · intro hN hneg
    rw [count_runErrors, hN]
    rw [show List.count "Extra closing brace(s)" (fpfuErrors cs) = 0 from by
      rw [fpfuErrors]
      split_ifs
      · rfl
      · exact count_singleton_ne (by decide)]
    rw [count_scan_zero (by decide)]
    rw [show List.count "Extra closing brace(s)" (braceSummary N) = 1 from by
      rw [braceSummary, if_neg (by omega), if_pos hneg]
      simp]
    rw [show List.count "Extra closing brace(s)"
        (parenSummary (scanSt cs).parens) = 0 from by
      rw [parenSummary]
      split_ifs with h1 h2
      · exact count_singleton_ne (ne_of_head (missingParenMsg_head _) rfl (by decide))
      · exact count_singleton_ne (by decide)
      · rfl]

/-- Witness for C4: one unclosed opening brace, and one extra closing
brace. -/
theorem C4_witness :
    List.count (missingBraceMsg 1) (runErrors "\x7b".data) = 1 ∧
    List.count "Extra closing brace(s)" (runErrors "\x7d".data) = 1 :=
  ⟨(C4_brace_summary "\x7b".data 1).1 (by decide) (by decide) (by decide),
   (C4_brace_summary "\x7d".data (-1)).2 (by decide) (by decide)⟩

/-- C5: the scan's error list is exactly one per-occurrence message per
offending closing character, tagged with that character's 1-based line
number (refinement of the split-lines source loop by the spec's raw
walk); in particular an unmatched closing brace (resp. parenthesis) on
line `L` puts the line-`L` message in the error bucket and makes the
verdict INVALID. -/
theorem C5_per_occurrence_line_errors (cs : List Char) :
    (scanSt cs).errors = (specOffenses cs).map offMsg ∧
    (∀ L : Nat, (L, OffKind.brace) ∈ specOffenses cs → cs.all isWs = false →
      lineMsgBrace L ∈ runErrors cs ∧ statusOf cs = some "INVALID") ∧
    (∀ L : Nat, (L, OffKind.paren) ∈ specOffenses cs → cs.all isWs = false →
      lineMsgParen L ∈ runErrors cs ∧ statusOf cs = some "INVALID") := by
  refine ⟨scan_errors_eq cs, ?_, ?_⟩
  · intro L hm hws
    have h1 : lineMsgBrace L ∈ (scanSt cs).errors := by
      rw [scan_errors_eq]
      exact List.mem_map.mpr ⟨(L, OffKind.brace), hm, rfl⟩
    have h2 : lineMsgBrace L ∈ runErrors cs :=
      List.mem_append_left _ (List.mem_append_left _ (List.mem_append_right _ h1))
    exact ⟨h2, statusOf_invalid hws (List.ne_nil_of_mem h2)⟩
  · intro L hm hws
    have h1 : lineMsgParen L ∈ (scanSt cs).errors := by
      rw [scan_errors_eq]
      exact List.mem_map.mpr ⟨(L, OffKind.paren), hm, rfl⟩
    have h2 : lineMsgParen L ∈ runErrors cs :=
      List.mem_append_left _ (List.mem_append_left _ (List.mem_append_right _ h1))
    exact ⟨h2, statusOf_invalid hws (List.ne_nil_of_mem h2)⟩

/-- Witness for C5: a closing brace on line 1 and a closing parenthesis
on line 2, each unmatched. -/
theorem C5_witness :
    lineMsgBrace 1 ∈ runErrors "\x7d\n)".data ∧
    statusOf "\x7d\n)".data = some "INVALID" ∧
    lineMsgParen 2 ∈ runErrors "\x7d\n)".data :=
  ⟨((C5_per_occurrence_line_errors "\x7d\n)".data).2.1 1 (by decide) (by decide)).1,
   ((C5_per_occurrence_line_errors "\x7d\n)".data).2.1 1 (by decide) (by decide)).2,
   ((C5_per_occurrence_line_errors "\x7d\n)".data).2.2 2 (by decide) (by decide)).1⟩

/-- C6: if the scan ends with the parenthesis counter at `P > 0`, the
error bucket contains, exactly once, a message carrying the count `P`
and the singular noun "parenthesis" — `Missing P closing parenthesis`;
if it ends negative, it contains `Extra closing parenthesis` — with no
count — exactly once. -/
theorem C6_paren_summary (cs : List Char) (P : Int) :
    ((scanSt cs).parens = P → 0 < P →
      List.count (missingParenMsg P) (runErrors cs) = 1) ∧
    ((scanSt cs).parens = P → P < 0 →
      List.count "Extra closing parenthesis" (runErrors cs) = 1) := by
  constructor
  · intro hP hpos
    rw [count_runErrors, hP]
    rw [show List.count (missingParenMsg P) (fpfuErrors cs) = 0 from by
      rw [fpfuErrors]
      split_ifs
      · rfl
      · exact count_singleton_ne (Ne.symm (missingParenMsg_ne_missingMsg hpos))]
    rw [count_scan_zero (by rw [missingParenMsg_head]; decide)]
    rw [show List.count (missingParenMsg P)
        (braceSummary (scanSt cs).brackets) = 0 from by
      rw [braceSummary]
      split_ifs with h1 h2
      · exact count_singleton_ne (missingBraceMsg_ne_missingParenMsg h1 hpos)
      · exact count_singleton_ne
          (ne_of_head rfl (missingParenMsg_head P) (by decide))
      · rfl]
    rw [show List.count (missingParenMsg P) (parenSummary P) = 1 from by
      rw [parenSummary, if_pos hpos]
      simp]
  · intro hP hneg
    rw [count_runErrors, hP]
    rw [show List.count "Extra closing parenthesis" (fpfuErrors cs) = 0 from by
      rw [fpfuErrors]
      split_ifs
      · rfl
      · exact count_singleton_ne (by decide)]
    rw [count_scan_zero (by decide)]
    rw [show List.count "Extra closing parenthesis"
        (braceSummary (scanSt cs).brackets) = 0 from by
      rw [braceSummary]
      split_ifs with h1 h2
      · exact count_singleton_ne (ne_of_head (missingBraceMsg_head _) rfl (by decide))
      · exact count_singleton_ne (by decide)
      · rfl]
    rw [show List.count "Extra closing parenthesis" (parenSummary P) = 1 from by
      rw [parenSummary, if_neg (by omega), if_pos hneg]
      simp]

/-- Witness for C6: one unclosed opening parenthesis, and one extra
closing parenthesis. -/
theorem C6_witness :
    List.count (missingParenMsg 1) (runErrors "(".data) = 1 ∧
    List.count "Extra closing parenthesis" (runErrors ")".data) = 1 :=
  ⟨(C6_paren_summary "(".data 1).1 (by decide) (by decide),
   (C6_paren_summary ")".data (-1)).2 (by decide) (by decide)⟩

lemma char_ofNat_upper_toNat {n : Nat} (h1 : 65 ≤ n) (h2 : n ≤ 90) :
    (Char.ofNat n).toNat = n := by
  interval_cases n <;> decide

lemma asciiUpper_idem (c : Char) : asciiUpper (asciiUpper c) = asciiUpper c := by
  by_cases h : 97 ≤ c.toNat ∧ c.toNat ≤ 122
  · have h1 : asciiUpper c = Char.ofNat (c.toNat - 32) := by
      rw [asciiUpper, if_pos]
      simp only [Bool.and_eq_true, decide_eq_true_eq]
      exact h
    have h2 : (asciiUpper c).toNat = c.toNat - 32 := by
      rw [h1]
      exact char_ofNat_upper_toNat (by omega) (by omega)
    conv_lhs => rw [asciiUpper]
    rw [h2, if_neg (by simp only [Bool.and_eq_true, decide_eq_true_eq]; omega)]
  · have h1 : asciiUpper c = c := by
      rw [asciiUpper,
        if_neg (by simp only [Bool.and_eq_true, decide_eq_true_eq]; omega)]
    rw [h1]
    exact h1

lemma isValidReturn_upper (v : List Char) :
    isValidReturn (v.map asciiUpper) = isValidReturn v := by
  rw [isValidReturn, isValidReturn, List.map_map,
    show asciiUpper ∘ asciiUpper = asciiUpper from funext asciiUpper_idem]

lemma retFindings_mem (rs : List (List Char)) (r v : List Char)
    (hr : r ∈ rs) (he : extractValue r = some v)
    (hne : (strip v).isEmpty = false) :
    (isValidReturn (strip v) = true →
      validRetMsg (strip v) ∈ (retFindings rs).2) ∧
    (isValidReturn (strip v) = false →
      unusualRetMsg (strip v) ∈ (retFindings rs).1) := by
  induction rs with
  | nil => cases hr
  | cons a rs ih =>
    rcases List.mem_cons.mp hr with rfl | hmem
    · constructor
      · intro hval
        simp [retFindings, he, hne, hval]
      · intro hval
        simp [retFindings, he, hne, hval]
    · obtain ⟨ih1, ih2⟩ := ih hmem
      constructor
      · intro hval
        simp only [retFindings]
        exact List.mem_append_right _ (ih1 hval)
      · intro hval
        simp only [retFindings]
        exact List.mem_append_right _ (ih2 hval)

/-- C7: every extracted return value that is non-empty after trimming is
classified by a case-insensitive prefix test against DIRECT, PROXY,
SOCKS, HTTP, HTTPS — `direct`, `Direct`, `DIRECT` all classify as valid
— yielding the `Valid return: '<value>'` INFO when it matches and the
`Unusual return value: '<value>'` WARNING when it matches none. -/
theorem C7_return_classification (cs r v : List Char) :
    (r ∈ findallReturns cs → extractValue r = some v →
        (strip v).isEmpty = false →
      (isValidReturn (strip v) = true → validRetMsg (strip v) ∈ runInfo cs) ∧
      (isValidReturn (strip v) = false →
        unusualRetMsg (strip v) ∈ runWarnings cs)) ∧
    isValidReturn "direct".data = true ∧
    isValidReturn "Direct".data = true ∧
    isValidReturn "DIRECT".data = true ∧
    (∀ w : List Char, isValidReturn (w.map asciiUpper) = isValidReturn w) := by
  refine ⟨?_, by decide, by decide, by decide, isValidReturn_upper⟩
  intro hr he hne
  have hrets : (findallReturns cs).isEmpty = false := by
    rcases hE : findallReturns cs with - | ⟨x, xs⟩
    · rw [hE] at hr
      cases hr
    · rfl
  obtain ⟨m1, m2⟩ := retFindings_mem (findallReturns cs) r v hr he hne
  constructor
  · intro hval
    have hmem : validRetMsg (strip v) ∈ returnInfos cs := by
      simp only [returnInfos, hrets]
      exact List.mem_cons_of_mem _ (m1 hval)
    exact List.mem_append_left _ (List.mem_append_right _ hmem)
  · intro hval
    have hmem : unusualRetMsg (strip v) ∈ returnWarnings cs := by
      simp only [returnWarnings, hrets]
      exact m2 hval
    exact hmem

/-- Witness for C7: one valid (lower-case) and one unusual return value
in a concrete script. -/
theorem C7_witness :
    validRetMsg "direct".data ∈
      runInfo "return 'direct' return 'bogus'".data ∧
    unusualRetMsg "bogus".data ∈
      runWarnings "return 'direct' return 'bogus'".data :=
  ⟨((C7_return_classification "return 'direct' return 'bogus'".data
      "return 'direct'".data "direct".data).1
      (by decide) (by decide) (by decide)).1 (by decide),
   ((C7_return_classification "return 'direct' return 'bogus'".data
      "return 'bogus'".data "bogus".data).1
      (by decide) (by decide) (by decide)).2 (by decide)⟩

/-- C8: with zero matches of the return-statement pattern the
`No return statements found` warning is appended; with at least one
match the INFO carrying the total number of matches — counting matches
whose value is empty after trimming and silently skipped — is placed
before all per-value classification findings. -/
theorem C8_return_count_reporting (cs : List Char) :
    (findallReturns cs = [] → "No return statements found" ∈ runWarnings cs) ∧
    (findallReturns cs ≠ [] →
      returnInfos cs =
        foundRetMsg (findallReturns cs).length ::
          (retFindings (findallReturns cs)).2 ∧
      foundRetMsg (findallReturns cs).length ∈ runInfo cs) := by
  constructor
  · intro hE
    rw [runWarnings]
    simp only [returnWarnings, hE]
    exact List.mem_singleton.mpr rfl
  · intro hne
    have hrets : (findallReturns cs).isEmpty = false := by
      rcases hE : findallReturns cs with - | ⟨x, xs⟩
      · exact absurd hE hne
      · rfl
    have h1 : returnInfos cs =
        foundRetMsg (findallReturns cs).length ::
          (retFindings (findallReturns cs)).2 := by
      simp only [returnInfos, hrets]
      rfl
    refine ⟨h1, ?_⟩
    have hmem : foundRetMsg (findallReturns cs).length ∈ returnInfos cs := by
      rw [h1]
      exact List.mem_cons_self _ _
    exact List.mem_append_left _ (List.mem_append_right _ hmem)

/-- Witness for C8: a script with no return statement, and one whose
single match has an empty quoted value (still counted). -/
theorem C8_witness :
    "No return statements found" ∈ runWarnings "x".data ∧
    foundRetMsg (findallReturns "return ''".data).length ∈
      runInfo "return ''".data :=
  ⟨(C8_return_count_reporting "x".data).1 (by decide),
   ((C8_return_count_reporting "return ''".data).2 (by decide)).2⟩

lemma startsWithL_iff (p : List Char) :
    ∀ cs, startsWithL p cs = true ↔ ∃ r, cs = p ++ r := by
  induction p with
  | nil =>
    intro cs
    simp [startsWithL]
  | cons a p ih =>
    intro cs
    cases cs with
    | nil => simp [startsWithL]
    | cons c t =>
      rw [show startsWithL (a :: p) (c :: t)
          = (decide (a = c) && startsWithL p t) from rfl]
      simp only [Bool.and_eq_true, decide_eq_true_eq, ih]
      constructor
      · rintro ⟨rfl, r, rfl⟩
        exact ⟨r, rfl⟩
      · rintro ⟨r, hr⟩
        rw [List.cons_append] at hr
        injection hr with h1 h2
        exact ⟨h1.symm, r, h2⟩

lemma containsSub_iff (needle hay : List Char) :
    containsSub hay needle = true ↔ ∃ pre post, hay = pre ++ needle ++ post := by
  induction hay with
  | nil =>
    rw [show containsSub [] needle = startsWithL needle [] from by
      rw [containsSub]; simp]
    rw [startsWithL_iff]
    constructor
    · rintro ⟨r, hr⟩
      obtain ⟨h1, h2⟩ := List.append_eq_nil.mp hr.symm
      exact ⟨[], [], by simp [h1]⟩
    · rintro ⟨pre, post, h⟩
      obtain ⟨h3, h4⟩ := List.append_eq_nil.mp h.symm
      obtain ⟨h5, h6⟩ := List.append_eq_nil.mp h3
      exact ⟨[], by simp [h6]⟩
  | cons c t ih =>
    rw [show containsSub (c :: t) needle
        = (startsWithL needle (c :: t) || containsSub t needle) from by
      rw [containsSub]]
    simp only [Bool.or_eq_true, ih, startsWithL_iff]
    constructor
    · rintro (⟨r, hr⟩ | ⟨pre, post, hp⟩)
      · exact ⟨[], r, by simpa using hr⟩
      · exact ⟨c :: pre, post, by simp [hp]⟩
    · rintro ⟨pre, post, hp⟩
      cases pre with
      | nil => exact Or.inl ⟨post, by simpa using hp⟩
      | cons d pre =>
        simp only [List.cons_append] at hp
        injection hp with h1 h2
        exact Or.inr ⟨pre, post, h2⟩

lemma retFindings_info_shape (rs : List (List Char)) :
    ∀ m ∈ (retFindings rs).2, ∃ v, m = validRetMsg v := by
  induction rs with
  | nil => intro m hm; cases hm
  | cons a rs ih =>
    intro m hm
    simp only [retFindings] at hm
    rcases List.mem_append.mp hm with h1 | h2
    · rcases he : extractValue a with - | v <;> simp only [he] at h1
      · cases h1
      · by_cases hse : (strip v).isEmpty = true
        · rw [if_pos hse] at h1
          cases h1
        · rw [if_neg hse] at h1
          by_cases hv : isValidReturn (strip v) = true
          · rw [if_pos hv] at h1
            rw [List.mem_singleton.mp h1]
            exact ⟨strip v, rfl⟩
          · rw [if_neg hv] at h1
            cases h1
    · exact ih m h2

lemma returnInfos_head (cs : List Char) :
    ∀ m ∈ returnInfos cs, m.data.head? = some 'F' ∨ m.data.head? = some 'V' := by
  intro m hm
  simp only [returnInfos] at hm
  by_cases hE : (findallReturns cs).isEmpty = true
  · rw [if_pos hE] at hm
    cases hm
  · rw [if_neg hE] at hm
    rcases List.mem_cons.mp hm with rfl | h2
    · exact Or.inl (foundRetMsg_head _)
    · obtain ⟨v, rfl⟩ := retFindings_info_shape _ m h2
      exact Or.inr (validRetMsg_head v)

/-- C9: the known-PAC-function scan is a literal substring test against
the twelve reference names — occurrences inside identifiers or comments
count — the found names keep the reference list's order, and exactly one
comma-joined INFO is appended when any name is present, none when none
is. -/
theorem C9_pac_function_scan (cs : List Char) :
    (∀ f : String, f ∈ foundFunctions cs ↔
      f ∈ pacFunctions ∧ ∃ pre post, cs = pre ++ f.data ++ post) ∧
    List.Sublist (foundFunctions cs) pacFunctions ∧
    (foundFunctions cs ≠ [] →
      List.count (pacFuncMsg (foundFunctions cs)) (runInfo cs) = 1) ∧
    (foundFunctions cs = [] → pacInfo cs = []) := by
  refine ⟨?_, ?_, ?_, ?_⟩
  · intro f
    rw [foundFunctions, List.mem_filter]
    exact and_congr_right (fun _ => containsSub_iff f.data cs)
  · exact List.filter_sublist pacFunctions
  · intro hne
    have hE : (foundFunctions cs).isEmpty = false := by
      rcases h : foundFunctions cs with - | ⟨x, xs⟩
      · exact absurd h hne
      · rfl
    rw [runInfo, List.count_append, List.count_append]
    rw [show List.count (pacFuncMsg (foundFunctions cs)) (fpfuInfo cs) = 0 from by
      rw [fpfuInfo]
      split_ifs
      · exact count_singleton_ne (ne_of_head rfl (pacFuncMsg_head _) (by decide))
      · rfl]
    rw [count_eq_zero_of_forall_ne (fun m hm he => by
      rcases returnInfos_head cs m hm with h1 | h1 <;>
        rw [he, pacFuncMsg_head] at h1 <;> exact absurd h1 (by decide))]
    rw [show List.count (pacFuncMsg (foundFunctions cs)) (pacInfo cs) = 1 from by
      rw [pacInfo, hE]
      simp]
  · intro h
    rw [pacInfo, h]
    rfl

/-- Witness for C9: a name inside a longer identifier still counts, and
the single INFO is emitted once. -/
theorem C9_witness :
    ("dnsResolve" ∈ foundFunctions "dnsResolveX isInNet".data ↔
      "dnsResolve" ∈ pacFunctions ∧
        ∃ pre post, "dnsResolveX isInNet".data =
          pre ++ "dnsResolve".data ++ post) ∧
    List.count (pacFuncMsg (foundFunctions "dnsResolveX isInNet".data))
      (runInfo "dnsResolveX isInNet".data) = 1 :=
  ⟨(C9_pac_function_scan "dnsResolveX isInNet".data).1 "dnsResolve",
   (C9_pac_function_scan "dnsResolveX isInNet".data).2.2.1 (by decide)⟩

/-- C10: the balance scan counts brace characters inside string
literals: a script that is a valid PAC file except for an unpaired `}`
inside a quoted return value gets brace-imbalance errors and verdict
INVALID, while the same script with a balanced quoted value is VALID. -/
theorem C10_quoted_brace_counted :
    statusOf c10Good.data = some "VALID" ∧
    statusOf c10Bad.data = some "INVALID" ∧
    lineMsgBrace 3 ∈ runErrors c10Bad.data ∧
    "Extra closing brace(s)" ∈ runErrors c10Bad.data := by
  refine ⟨?_, ?_, ?_, ?_⟩ <;> decide

end PacCheck
